import Mathlib

/-!
Verification of the FunC piecewise-polynomial lookup-table library.

The C++ source is shallowly embedded over exact rational arithmetic: every
floating-point quantity of the program becomes a rational number, machine
integer indices become natural numbers or integers, and functions that throw
exceptions or perform out-of-bounds accesses return an explicit result sum
type.  Each definition below is a direct translation of the named function of
the source tree.
-/

namespace FunC

/-! ## Polynomial records and Horner evaluation (MetaTable.hpp) -/

/-- Inner loop of MetaTable.hpp, operator(), lines 230-232:
sum starts at 0 and, for k from N-1 down to 1, sets sum = (coefs[k] + sum)*dx.
The list argument holds coefs[1], coefs[2], ..., coefs[N-1] in that order. -/
def hornerLoop (t : ℚ) : List ℚ → ℚ
  | [] => 0
  | c :: cs => (c + hornerLoop t cs) * t

/-- Translation of MetaTable.hpp, operator(), lines 229-233: general-degree
Horner evaluation from the inside out, with the sum initialised to 0 and the
final result coefs[0] + sum.  The list holds coefs[0], ..., coefs[N-1]. -/
def hornerEval (cs : List ℚ) (t : ℚ) : ℚ :=
  match cs with
  | [] => 0
  | c0 :: rest => c0 + hornerLoop t rest

/-- Statement of the Horner contract exactly as the specification words it
(spec section 4.1): s starts at 0, s accumulates (c_k + s)*t for k from N-1
down to 1, and the result is c_0 + s.  Written with a fold so that it can be
compared against the translated code hornerEval. -/
def hornerSpec (cs : List ℚ) (t : ℚ) : ℚ :=
  match cs with
  | [] => 0
  | c0 :: rest => c0 + rest.foldr (fun c s => (c + s) * t) 0

theorem hornerLoop_eq_foldr (t : ℚ) (cs : List ℚ) :
    hornerLoop t cs = cs.foldr (fun c s => (c + s) * t) 0 := by
  induction cs with
  | nil => rfl
  | cons c cs ih => simp [hornerLoop, ih]

theorem hornerSpec_eq_hornerEval (cs : List ℚ) (t : ℚ) :
    hornerSpec cs t = hornerEval cs t := by
  cases cs with
  | nil => rfl
  | cons c0 rest => simp [hornerSpec, hornerEval, hornerLoop_eq_foldr]

/-! ## Casts and constructor-derived quantities -/

/-- Model of a C++ static cast from a floating-point value to unsigned int.
For a nonnegative argument the cast truncates toward zero, which agrees with
the floor; for a negative argument the C++ cast is undefined behaviour, and
this model clamps to 0.  All theorems below only use it on nonnegative
arguments. -/
def toUnsigned (q : ℚ) : ℕ := (⌊q⌋).toNat

theorem toUnsigned_cast (q : ℚ) (hq : 0 ≤ q) : ((toUnsigned q : ℤ) : ℚ) = (⌊q⌋ : ℚ) := by
  have h0 : (0 : ℤ) ≤ ⌊q⌋ := Int.floor_nonneg.mpr hq
  simp [toUnsigned, Int.toNat_of_nonneg h0]

/-- Translation of LookupTable.hpp line 77 and MetaTable.hpp line 142:
m_numIntervals = static_cast of ceil(m_stepSize_inv*(m_maxArg-m_minArg)) to
unsigned, where m_stepSize_inv = 1/m_stepSize.  The model is exact whenever
the ceiling is nonnegative (every use below); for a strictly negative ceiling
the C++ cast would be undefined behaviour, which no theorem relies on. -/
def uniformNumIntervals (a b h : ℚ) : ℕ := (⌈(1 / h) * (b - a)⌉).toNat

/-- Translation of LookupTable.hpp line 78 and MetaTable.hpp line 143:
m_tableMaxArg = m_minArg + m_stepSize*m_numIntervals. -/
def uniformTableMaxArg (a b h : ℚ) : ℚ := a + h * (uniformNumIntervals a b h : ℚ)

/-- Error kinds raised by table construction (spec section 7).  The
conditioning constructor corresponds to the std::range_error thrown by
TransferFunctionSinh.hpp lines 222-224; badArgument corresponds to the
std::invalid_argument thrown by LookupTable.hpp and MetaTable.hpp. -/
inductive FuncErr where
  | badArgument
  | conditioning
  deriving DecidableEq

/-- Translation of the validation and derived-quantity computation common to
LookupTable.hpp lines 62-79 and MetaTable.hpp lines 133-153: the constructor
throws invalid_argument when m_stepSize <= 0 and otherwise records the
interval count and the table max.  The null-function check of the C++ code is
not representable here because the embedded function is total, so the model
takes the function as given. -/
def lookupTableCtor (a b h : ℚ) : Except FuncErr (ℕ × ℚ) :=
  if h ≤ 0 then .error .badArgument
  else .ok (uniformNumIntervals a b h, uniformTableMaxArg a b h)

/-! ## The uniform hash and table evaluation (MetaTable.hpp lines 202-234) -/

/-- Translation of MetaTable.hpp, hash for the UNIFORM grid type, lines
202-210: dx = m_stepSize_inv*(x - m_minArg); x0 = static cast of dx to
unsigned; dx -= x0.  The first argument is m_minArg and the second is
m_stepSize_inv as stored by the constructor. -/
def uniformHash (a hInv x : ℚ) : ℕ × ℚ :=
  let dx := hInv * (x - a)
  let x0 := toUnsigned dx
  (x0, dx - (x0 : ℚ))

/-- Translation of MetaTable.hpp, operator(), lines 224-234 for a UNIFORM
table: hash the argument, then run Horner on the selected piece.  The table
is the list of coefficient records m_table; an index beyond the stored pieces
selects the empty record (the C++ code would read out of bounds there, which
no in-domain evaluation of a well-formed table does). -/
def metaEvalUniform (tbl : List (List ℚ)) (a hInv x : ℚ) : ℚ :=
  let p := uniformHash a hInv x
  hornerEval (tbl.getD p.1 []) p.2

/-- C1: for a uniform table with grid (a, b, h), pieces of N coefficients
each, and any x in [a, b], evaluation returns the Horner evaluation of piece
i = floor((x-a)/h) at local coordinate t = (x-a)/h - i, where the Horner sum
starts at 0, accumulates s = (c_k + s)*t for k from N-1 down to 1, and
finishes with c_0 + s. -/
theorem uniform_eval_is_horner_of_hashed_piece
    (tbl : List (List ℚ)) (a b h x : ℚ)
    (hh : 0 < h) (hax : a ≤ x) (_hxb : x ≤ b) :
    metaEvalUniform tbl a (1 / h) x =
      hornerSpec (tbl.getD (⌊(x - a) / h⌋).toNat []) ((x - a) / h - (⌊(x - a) / h⌋ : ℚ)) := by
  have hδ : (1 / h) * (x - a) = (x - a) / h := by ring
  have hδ0 : 0 ≤ (x - a) / h := div_nonneg (by linarith) (le_of_lt hh)
  have hfl : (0 : ℤ) ≤ ⌊(x - a) / h⌋ := Int.floor_nonneg.mpr hδ0
  have hcast : ((toUnsigned ((x - a) / h) : ℤ) : ℚ) = (⌊(x - a) / h⌋ : ℚ) :=
    toUnsigned_cast _ hδ0
  have hto : toUnsigned ((x - a) / h) = (⌊(x - a) / h⌋).toNat := rfl
  have hnat : (((⌊(x - a) / h⌋).toNat : ℕ) : ℚ) = ((⌊(x - a) / h⌋ : ℤ) : ℚ) := by
    exact_mod_cast congrArg (fun z : ℤ => (z : ℚ)) (Int.toNat_of_nonneg hfl)
  simp only [metaEvalUniform, uniformHash, hδ, hornerSpec_eq_hornerEval, hto, hnat]

theorem uniform_eval_is_horner_of_hashed_piece_witness :
    (0 : ℚ) < 1 / 2 ∧ (0 : ℚ) ≤ 3 / 4 ∧ (3 / 4 : ℚ) ≤ 1 ∧
      metaEvalUniform [[1, 2], [3, 4], [5, 0]] 0 (1 / (1 / 2)) (3 / 4) =
        hornerSpec ([[(1 : ℚ), 2], [3, 4], [5, 0]].getD (⌊((3 / 4 : ℚ) - 0) / (1 / 2)⌋).toNat [])
          (((3 / 4 : ℚ) - 0) / (1 / 2) - (⌊((3 / 4 : ℚ) - 0) / (1 / 2)⌋ : ℚ)) :=
  ⟨by norm_num, by norm_num, by norm_num,
    uniform_eval_is_horner_of_hashed_piece [[1, 2], [3, 4], [5, 0]] 0 1 (1 / 2) (3 / 4)
      (by norm_num) (by norm_num) (by norm_num)⟩

/-! ## Grid-descriptor invariants (claim C8) -/

/-- C8: for a valid construction with min a, requested max b >= a and step
h > 0, the interval count is N_int = ceil((b-a)/h), and it satisfies
N_int*h >= b-a, N_int*h < b-a+h, and tableMaxArg = a + N_int*h >= b. -/
theorem num_intervals_ceil_bounds (a b h : ℚ) (hh : 0 < h) (hab : a ≤ b) :
    ((uniformNumIntervals a b h : ℤ) = ⌈(b - a) / h⌉) ∧
      b - a ≤ (uniformNumIntervals a b h : ℚ) * h ∧
      (uniformNumIntervals a b h : ℚ) * h < b - a + h ∧
      b ≤ uniformTableMaxArg a b h := by
  have hδ : (1 / h) * (b - a) = (b - a) / h := by ring
  have hδ0 : 0 ≤ (b - a) / h := div_nonneg (by linarith) (le_of_lt hh)
  have hceil : (0 : ℤ) ≤ ⌈(b - a) / h⌉ := Int.ceil_nonneg hδ0
  have hN : (uniformNumIntervals a b h : ℤ) = ⌈(b - a) / h⌉ := by
    unfold uniformNumIntervals
    rw [hδ, Int.toNat_of_nonneg hceil]
  have hNQ : (uniformNumIntervals a b h : ℚ) = (⌈(b - a) / h⌉ : ℚ) := by
    exact_mod_cast congrArg (fun z : ℤ => (z : ℚ)) hN
  refine ⟨hN, ?_, ?_, ?_⟩
  · have hle : (b - a) / h ≤ (⌈(b - a) / h⌉ : ℚ) := Int.le_ceil _
    have := (div_le_iff₀ hh).mp hle
    rw [hNQ]; linarith
  · have hlt : (⌈(b - a) / h⌉ : ℚ) < (b - a) / h + 1 := Int.ceil_lt_add_one _
    have hmul : (⌈(b - a) / h⌉ : ℚ) * h < ((b - a) / h + 1) * h := by
      exact mul_lt_mul_of_pos_right hlt hh
    have hdm : ((b - a) / h + 1) * h = b - a + h := by
      field_simp
    rw [hNQ]; rw [hdm] at hmul; exact hmul
  · have hle : (b - a) / h ≤ (⌈(b - a) / h⌉ : ℚ) := Int.le_ceil _
    have := (div_le_iff₀ hh).mp hle
    simp only [uniformTableMaxArg]
    rw [hNQ]; linarith

theorem num_intervals_ceil_bounds_witness :
    (0 : ℚ) < 3 / 7 ∧ (0 : ℚ) ≤ 1 ∧
      (((uniformNumIntervals 0 1 (3 / 7) : ℤ) = ⌈((1 : ℚ) - 0) / (3 / 7)⌉) ∧
        (1 : ℚ) - 0 ≤ (uniformNumIntervals 0 1 (3 / 7) : ℚ) * (3 / 7) ∧
        (uniformNumIntervals 0 1 (3 / 7) : ℚ) * (3 / 7) < 1 - 0 + 3 / 7 ∧
        (1 : ℚ) ≤ uniformTableMaxArg 0 1 (3 / 7)) :=
  ⟨by norm_num, by norm_num,
    num_intervals_ceil_bounds 0 1 (3 / 7) (by norm_num) (by norm_num)⟩

/-! ## Constructor validation (claim C7) -/

/-- C7 counterexample: with minArg a = 0, requested maxArg b = -1/2 (so
b <= a) and stepSize h = 1 > 0, the constructors of LookupTable.hpp and
MetaTable.hpp do not throw; they compute ceil((b-a)/h) = ceil(-1/2) = 0,
whose unsigned cast is well defined and yields an interval count of 0, and
construction succeeds with tableMaxArg = a.  The claim says b <= a raises a
BadArgument error. -/
theorem ctor_accepts_reversed_bounds :
    lookupTableCtor 0 (-1 / 2) 1 = .ok (0, 0) ∧
      lookupTableCtor 0 (-1 / 2) 1 ≠ .error .badArgument := by
  have hN0 : uniformNumIntervals 0 (-1 / 2) 1 = 0 := by
    unfold uniformNumIntervals
    norm_num
    exact Int.ceil_le.mpr (by norm_num)
  have hok : lookupTableCtor 0 (-1 / 2) 1 = .ok (0, 0) := by
    unfold lookupTableCtor uniformTableMaxArg
    rw [if_neg (by norm_num : ¬ (1 : ℚ) ≤ 0), hN0]
    norm_num
  exact ⟨hok, by rw [hok]; intro hcontra; exact Except.noConfusion hcontra⟩

/-- C7 amended: construction raises a BadArgument error exactly when the step
size satisfies h <= 0; the bound ordering b <= a is not validated by the
LookupTable and MetaTable constructors.  The throw test precedes the
derived-quantity computation in the source (LookupTable.hpp lines 73-77,
MetaTable.hpp lines 138-142), so the error decision is well defined for every
a and b. -/
theorem ctor_rejects_iff_nonpositive_step (a b h : ℚ) :
    lookupTableCtor a b h = .error .badArgument ↔ h ≤ 0 := by
  unfold lookupTableCtor
  by_cases hc : h ≤ 0 <;> simp [hc]

/-! ## CompositeLookupTable (CompositeLookupTable.hpp / .cpp) -/

/-- Interface of one sub-table as seen by CompositeLookupTable: its argument
range and its (infallible) evaluation operator.  Simple lookup tables never
throw on evaluation per the source contract. -/
structure SubTable where
  minA : ℚ
  maxA : ℚ
  val : ℚ → ℚ

/-- Composite-table state: the vector mv_LUT of sub-tables, the
mostRecentlyUsed_idx member, and the smallest_interval member. -/
structure CompositeTable where
  subs : List SubTable
  mru : ℕ
  si : ℚ

/-- Observable outcomes of a composite evaluation.  domainErr is the
std::domain_error thrown by binarySearch; outOfBounds marks an access
mv_LUT[i] with i outside [0, n), which is undefined behaviour in the C++
source; stackOverflow marks exhaustion of the modelled call stack (the C++
recursion is unbounded and can genuinely fail to terminate). -/
inductive CompErr where
  | domainErr
  | outOfBounds
  | stackOverflow
  deriving DecidableEq

/-- Largest double value, used verbatim by the constructor
(std::numeric_limits of IN_TYPE, CompositeLookupTable.cpp line 35). -/
def dblMax : ℚ := (2 ^ 53 - 1) * 2 ^ 971

/-- Translation of CompositeLookupTable.cpp lines 35 and 50-51: the smallest
interval starts at the largest representable value and is lowered to each
sub-range width that is smaller than the running value. -/
def smallestInterval (subs : List SubTable) : ℚ :=
  subs.foldl (fun acc t => if t.maxA - t.minA < acc then t.maxA - t.minA else acc) dblMax

/-- Translation of the member initialisation in the vector-of-names
constructor, CompositeLookupTable.cpp lines 34-53.  The factory that builds
each sub-table from its name is outside the embedded core, so the constructor
is modelled on the list of sub-tables it produces; mostRecentlyUsed_idx is
names.size()/2 (line 36) and smallest_interval is the fold above. -/
def mkComposite (subs : List SubTable) : CompositeTable :=
  { subs := subs, mru := subs.length / 2, si := smallestInterval subs }

/-- Translation of CompositeLookupTable.cpp lines 98-111, linearSearch with
is_left = true, threading the table state through every call exactly as the
C++ member function implicitly does: the state is returned unchanged because
the function body contains no member assignment.  The C++ code dereferences
mv_LUT[i] before any bounds check, so i outside [0, n) is an outOfBounds
outcome. -/
def linearSearchLeftS (x : ℚ) (T : CompositeTable) (i : ℤ) :
    Except CompErr ℚ × CompositeTable :=
  if i < 0 then (.error .outOfBounds, T)
  else if hib : i.toNat < T.subs.length then
    if x < (T.subs.get ⟨i.toNat, hib⟩).minA then linearSearchLeftS x T (i - 1)
    else (.ok ((T.subs.get ⟨i.toNat, hib⟩).val x), T)
  else (.error .outOfBounds, T)
termination_by (i + 1).toNat
decreasing_by omega

/-- Translation of CompositeLookupTable.cpp lines 98-111, linearSearch with
is_left = false; same conventions as the left variant. -/
def linearSearchRightS (x : ℚ) (T : CompositeTable) (i : ℤ) :
    Except CompErr ℚ × CompositeTable :=
  if i < 0 then (.error .outOfBounds, T)
  else if hib : i.toNat < T.subs.length then
    if x > (T.subs.get ⟨i.toNat, hib⟩).maxA then linearSearchRightS x T (i + 1)
    else (.ok ((T.subs.get ⟨i.toNat, hib⟩).val x), T)
  else (.error .outOfBounds, T)
termination_by (T.subs.length - i).toNat
decreasing_by omega

/-- Translation of CompositeLookupTable.cpp lines 78-96, binarySearch.  The
midpoint indices use C int division, which truncates toward zero (Int.tdiv);
the fuel argument models the C++ call stack, which the source never bounds --
the recursion can repeat a state forever, e.g. from (i, i, i+1) when x lies
right of table i, so no finite fuel is always sufficient. -/
def binarySearchS (x : ℚ) : ℕ → ℤ → ℤ → ℤ → CompositeTable →
    Except CompErr ℚ × CompositeTable
  | 0, _, _, _, T => (.error .stackOverflow, T)
  | fuel + 1, i, minIdx, maxIdx, T =>
    if i < 0 then (.error .outOfBounds, T)
    else if hib : i.toNat < T.subs.length then
      if x < (T.subs.get ⟨i.toNat, hib⟩).minA then
        if i = minIdx then (.error .domainErr, T)
        else binarySearchS x fuel ((i + minIdx).tdiv 2) minIdx i T
      else if x > (T.subs.get ⟨i.toNat, hib⟩).maxA then
        if i = maxIdx then (.error .domainErr, T)
        else binarySearchS x fuel ((i + maxIdx).tdiv 2) i maxIdx T
      else (.ok ((T.subs.get ⟨i.toNat, hib⟩).val x), T)
    else (.error .outOfBounds, T)

/-- Translation of CompositeLookupTable.cpp lines 113-138, operator(): fetch
the most-recently-used sub-table, then dispatch on the position of x relative
to its range.  The guard structure, the search directions and the start
indices are copied branch for branch from the source. -/
def compositeEvalS (T : CompositeTable) (fuel : ℕ) (x : ℚ) :
    Except CompErr ℚ × CompositeTable :=
  if hmru : T.mru < T.subs.length then
    let recent := T.subs.get ⟨T.mru, hmru⟩
    if x < recent.minA - 2 * T.si then
      binarySearchS x fuel ((T.mru : ℤ).tdiv 2) 0 (T.mru : ℤ) T
    else if x < recent.minA then
      linearSearchLeftS x T (T.mru : ℤ)
    else if x < recent.maxA then
      (.ok (recent.val x), T)
    else if x > recent.maxA + 2 * T.si then
      linearSearchRightS x T (T.mru : ℤ)
    else
      binarySearchS x fuel (((T.mru : ℤ) + (T.subs.length : ℤ) - 1).tdiv 2)
        (T.mru : ℤ) ((T.subs.length : ℤ) - 1) T
  else (.error .outOfBounds, T)

/-- Value component of a composite evaluation. -/
def compositeEval (T : CompositeTable) (fuel : ℕ) (x : ℚ) : Except CompErr ℚ :=
  (compositeEvalS T fuel x).1

/-- Search policies reachable from operator(); invalidMRU marks the case
where mostRecentlyUsed_idx itself indexes outside the sub-table vector. -/
inductive SearchStrategy where
  | binaryLeft
  | linearLeft
  | recentHit
  | linearRight
  | binaryRight
  | invalidMRU
  deriving DecidableEq

/-- Guard chain of CompositeLookupTable.cpp lines 113-138, recorded as the
search policy operator() selects for an argument x. -/
def chooseStrategy (T : CompositeTable) (x : ℚ) : SearchStrategy :=
  if hmru : T.mru < T.subs.length then
    let recent := T.subs.get ⟨T.mru, hmru⟩
    if x < recent.minA - 2 * T.si then .binaryLeft
    else if x < recent.minA then .linearLeft
    else if x < recent.maxA then .recentHit
    else if x > recent.maxA + 2 * T.si then .linearRight
    else .binaryRight
  else .invalidMRU

theorem linearSearchLeftS_frame (x : ℚ) (T : CompositeTable) (i : ℤ) :
    (linearSearchLeftS x T i).2 = T := by
  unfold linearSearchLeftS
  split
  · rfl
  · split
    · split
      · exact linearSearchLeftS_frame x T _
      · rfl
    · rfl
termination_by (i + 1).toNat
decreasing_by omega

theorem linearSearchRightS_frame (x : ℚ) (T : CompositeTable) (i : ℤ) :
    (linearSearchRightS x T i).2 = T := by
  unfold linearSearchRightS
  split
  · rfl
  · split
    · split
      · exact linearSearchRightS_frame x T _
      · rfl
    · rfl
termination_by (T.subs.length - i).toNat
decreasing_by omega

theorem binarySearchS_frame (x : ℚ) (fuel : ℕ) (i minIdx maxIdx : ℤ)
    (T : CompositeTable) :
    (binarySearchS x fuel i minIdx maxIdx T).2 = T := by
  induction fuel generalizing i minIdx maxIdx with
  | zero => rfl
  | succ fuel ih =>
    unfold binarySearchS
    split
    · rfl
    · split
      · split
        · split
          · rfl
          · exact ih _ _ _
        · split
          · split
            · rfl
            · exact ih _ _ _
          · rfl
      · rfl

/-- C10: operator(), binarySearch and linearSearch never write any member of
the composite table -- the state they return is the state they received --
and the constructor initialises mostRecentlyUsed_idx to names.size()/2, a
value that therefore persists across every evaluation. -/
theorem composite_eval_never_mutates :
    (∀ (T : CompositeTable) (fuel : ℕ) (x : ℚ), (compositeEvalS T fuel x).2 = T) ∧
      (∀ subs : List SubTable, (mkComposite subs).mru = subs.length / 2) := by
  constructor
  · intro T fuel x
    unfold compositeEvalS
    split
    · dsimp only
      split
      · exact binarySearchS_frame ..
      · split
        · exact linearSearchLeftS_frame ..
        · split
          · rfl
          · split
            · exact linearSearchRightS_frame ..
            · exact binarySearchS_frame ..
    · rfl
  · intro subs
    rfl

/-- Sub-tables over the two abutting ranges [0,1] and [1,2] (the stored
values are irrelevant to the searched-for control flow). -/
def twoRangeSubs : List SubTable := [⟨0, 1, fun _ => 0⟩, ⟨1, 2, fun _ => 0⟩]

/-- Concrete composite table over twoRangeSubs, as the constructor builds it:
MRU index 2/2 = 1, smallest interval 1. -/
def twoRangeTable : CompositeTable := mkComposite twoRangeSubs

/-- C4: for the composite table over [0,1] and [1,2] (MRU index 1, smallest
interval 1), the out-of-domain argument x = -1/2 lies within
2*smallest_interval of the MRU range, so operator() linear-searches left past
sub-table 0 and dereferences mv_LUT[-1] -- undefined behaviour -- instead of
throwing the domain error the claim requires. -/
theorem composite_outside_union_out_of_bounds :
    compositeEval twoRangeTable 10 (-1 / 2) = .error .outOfBounds ∧
      compositeEval twoRangeTable 10 (-1 / 2) ≠ .error .domainErr := by
  have hT : twoRangeTable = ⟨twoRangeSubs, 1, 1⟩ := by
    have hsi : smallestInterval twoRangeSubs = 1 := by
      unfold smallestInterval twoRangeSubs dblMax
      norm_num
    unfold twoRangeTable mkComposite
    rw [hsi]
    rfl
  have hstep : compositeEval twoRangeTable 10 (-1 / 2) = .error .outOfBounds := by
    rw [hT]
    unfold compositeEval compositeEvalS
    rw [dif_pos (by decide : (⟨twoRangeSubs, 1, 1⟩ : CompositeTable).mru <
      (⟨twoRangeSubs, 1, 1⟩ : CompositeTable).subs.length)]
    have grec : ∀ hp, ((⟨twoRangeSubs, 1, 1⟩ : CompositeTable).subs.get
        ⟨(⟨twoRangeSubs, 1, 1⟩ : CompositeTable).mru, hp⟩) = (⟨1, 2, fun _ => 0⟩ : SubTable) :=
      fun hp => rfl
    simp only [grec]
    rw [if_neg (by norm_num : ¬ ((-1 / 2 : ℚ) < (⟨1, 2, fun _ => 0⟩ : SubTable).minA -
      2 * (⟨twoRangeSubs, 1, 1⟩ : CompositeTable).si))]
    rw [if_pos (by norm_num : ((-1 / 2 : ℚ) < (⟨1, 2, fun _ => 0⟩ : SubTable).minA))]
    have e1 : linearSearchLeftS (-1 / 2) (⟨twoRangeSubs, 1, 1⟩ : CompositeTable) (-1) =
        (.error .outOfBounds, ⟨twoRangeSubs, 1, 1⟩) := by
      rw [linearSearchLeftS, if_pos (by decide : (-1 : ℤ) < 0)]
    have e0 : linearSearchLeftS (-1 / 2) (⟨twoRangeSubs, 1, 1⟩ : CompositeTable) 0 =
        (.error .outOfBounds, ⟨twoRangeSubs, 1, 1⟩) := by
      rw [linearSearchLeftS, if_neg (by decide : ¬ (0 : ℤ) < 0),
          dif_pos (by decide : (0 : ℤ).toNat <
            (⟨twoRangeSubs, 1, 1⟩ : CompositeTable).subs.length)]
      have g0 : ∀ hp, ((⟨twoRangeSubs, 1, 1⟩ : CompositeTable).subs.get ⟨(0 : ℤ).toNat, hp⟩) =
          (⟨0, 1, fun _ => 0⟩ : SubTable) := fun hp => rfl
      rw [g0, if_pos (by norm_num : ((-1 / 2 : ℚ) < (⟨0, 1, fun _ => 0⟩ : SubTable).minA)),
          (by decide : (0 : ℤ) - 1 = -1), e1]
    have e2 : linearSearchLeftS (-1 / 2) (⟨twoRangeSubs, 1, 1⟩ : CompositeTable) 1 =
        (.error .outOfBounds, ⟨twoRangeSubs, 1, 1⟩) := by
      rw [linearSearchLeftS, if_neg (by decide : ¬ (1 : ℤ) < 0),
          dif_pos (by decide : (1 : ℤ).toNat <
            (⟨twoRangeSubs, 1, 1⟩ : CompositeTable).subs.length)]
      have g1 : ∀ hp, ((⟨twoRangeSubs, 1, 1⟩ : CompositeTable).subs.get ⟨(1 : ℤ).toNat, hp⟩) =
          (⟨1, 2, fun _ => 0⟩ : SubTable) := fun hp => rfl
      rw [g1, if_pos (by norm_num : ((-1 / 2 : ℚ) < (⟨1, 2, fun _ => 0⟩ : SubTable).minA)),
          (by decide : (1 : ℤ) - 1 = 0), e0]
    rw [show ((⟨twoRangeSubs, 1, 1⟩ : CompositeTable).mru : ℤ) = 1 from rfl, e2]
  exact ⟨hstep, by rw [hstep]; intro hcontra; simp at hcontra⟩

/-- Sub-tables over the three abutting ranges [0,1], [1,2], [2,3]. -/
def threeRangeSubs : List SubTable :=
  [⟨0, 1, fun _ => 0⟩, ⟨1, 2, fun _ => 0⟩, ⟨2, 3, fun _ => 0⟩]

/-- Concrete composite table over threeRangeSubs: MRU index 3/2 = 1, smallest
interval 1. -/
def threeRangeTable : CompositeTable := mkComposite threeRangeSubs

/-- C5: with MRU range [1,2] and smallest interval 1, the far argument
x = 10 (distance 8 > 2*smallest_interval from the MRU range) is dispatched to
the one-at-a-time linear scan, and the near argument x = 5/2 (distance 1/2
<= 2*smallest_interval) is dispatched to binary search: the opposite of the
claimed policy on the right-hand side. -/
theorem composite_right_side_policy_swapped :
    chooseStrategy threeRangeTable 10 = .linearRight ∧
      chooseStrategy threeRangeTable (5 / 2) = .binaryRight := by
  have hT : threeRangeTable = ⟨threeRangeSubs, 1, 1⟩ := by
    have hsi : smallestInterval threeRangeSubs = 1 := by
      unfold smallestInterval threeRangeSubs dblMax
      norm_num
    unfold threeRangeTable mkComposite
    rw [hsi]
    rfl
  have grec : ∀ hp, ((⟨threeRangeSubs, 1, 1⟩ : CompositeTable).subs.get
      ⟨(⟨threeRangeSubs, 1, 1⟩ : CompositeTable).mru, hp⟩) = (⟨1, 2, fun _ => 0⟩ : SubTable) :=
    fun hp => rfl
  constructor
  · rw [hT]
    unfold chooseStrategy
    rw [dif_pos (by decide : (⟨threeRangeSubs, 1, 1⟩ : CompositeTable).mru <
      (⟨threeRangeSubs, 1, 1⟩ : CompositeTable).subs.length)]
    simp only [grec]
    rw [if_neg (by norm_num : ¬ ((10 : ℚ) < (⟨1, 2, fun _ => 0⟩ : SubTable).minA -
          2 * (⟨threeRangeSubs, 1, 1⟩ : CompositeTable).si)),
        if_neg (by norm_num : ¬ ((10 : ℚ) < (⟨1, 2, fun _ => 0⟩ : SubTable).minA)),
        if_neg (by norm_num : ¬ ((10 : ℚ) < (⟨1, 2, fun _ => 0⟩ : SubTable).maxA)),
        if_pos (by norm_num : ((10 : ℚ) > (⟨1, 2, fun _ => 0⟩ : SubTable).maxA +
          2 * (⟨threeRangeSubs, 1, 1⟩ : CompositeTable).si))]
  · rw [hT]
    unfold chooseStrategy
    rw [dif_pos (by decide : (⟨threeRangeSubs, 1, 1⟩ : CompositeTable).mru <
      (⟨threeRangeSubs, 1, 1⟩ : CompositeTable).subs.length)]
    simp only [grec]
    rw [if_neg (by norm_num : ¬ ((5 / 2 : ℚ) < (⟨1, 2, fun _ => 0⟩ : SubTable).minA -
          2 * (⟨threeRangeSubs, 1, 1⟩ : CompositeTable).si)),
        if_neg (by norm_num : ¬ ((5 / 2 : ℚ) < (⟨1, 2, fun _ => 0⟩ : SubTable).minA)),
        if_neg (by norm_num : ¬ ((5 / 2 : ℚ) < (⟨1, 2, fun _ => 0⟩ : SubTable).maxA)),
        if_neg (by norm_num : ¬ ((5 / 2 : ℚ) > (⟨1, 2, fun _ => 0⟩ : SubTable).maxA +
          2 * (⟨threeRangeSubs, 1, 1⟩ : CompositeTable).si))]

/-! ## Table families and the sentinel piece (claim C2) -/

/-- Translation of QuadraticInterpolationTable.hpp lines 61-66: the three
coefficients of one regular piece, from f sampled at the left endpoint, the
midpoint and the right endpoint of the piece. -/
def quadCoefs (f : ℚ → ℚ) (x h : ℚ) : List ℚ :=
  [f x, -3 * f x + 4 * f (x + h / 2) - f (x + h),
    2 * f x + -4 * f (x + h / 2) + 2 * f (x + h)]

/-- Translation of the QuadraticInterpolationTable constructor (uniform grid),
QuadraticInterpolationTable.hpp lines 41-72: m_numTableEntries =
m_numIntervals + 1; the loop fills entries 0 to numTableEntries-2 with
regular pieces at x = minArg + ii*stepSize, and the final entry is the
sentinel piece with coefs[0] = f(tableMaxArg) and all other coefficients 0. -/
def quadTable (f : ℚ → ℚ) (a b h : ℚ) : List (List ℚ) :=
  ((List.range (uniformNumIntervals a b h)).map fun (ii : ℕ) => quadCoefs f (a + (ii : ℚ) * h) h)
    ++ [[f (uniformTableMaxArg a b h), 0, 0]]

/-- Translation of the UniformLinearInterpolationTable constructor,
UniformLinearInterpolationTable.hpp lines 24-40: m_numTableEntries =
m_numIntervals (no extra entry), and entry ii stores the single coefficient
f(minArg + ii*stepSize). -/
def linTable (f : ℚ → ℚ) (a h : ℚ) (n : ℕ) : List ℚ :=
  (List.range n).map fun (ii : ℕ) => f (a + (ii : ℚ) * h)

/-- Translation of UniformLinearInterpolationTable.hpp operator(), lines
42-54: dx = (x-minArg)/stepSize, x1 = unsigned cast of dx, dx -= x1, then
y1 + dx*(y2-y1) from entries x1 and x1+1.  A read past the stored entries is
undefined behaviour in the C++ source and is modelled as none. -/
def linEval (tbl : List ℚ) (a h x : ℚ) : Option ℚ :=
  let dx := (x - a) / h
  let x1 := toUnsigned dx
  match tbl[x1]?, tbl[x1 + 1]? with
  | some y1, some y2 => some (y1 + (dx - (x1 : ℚ)) * (y2 - y1))
  | _, _ => none

/-- C2: for the grid a = 0, b = 1, h = 1/2 (N_int = 2) and f the identity,
the quadratic family does produce N_int + 1 pieces with the sentinel, but the
uniform linear interpolation family produces only N_int single-coefficient
entries -- no sentinel -- and its evaluation at x = 3/4, inside the last
interval, reads entry x1+1 = 2 past the end of the array. -/
theorem linear_family_lacks_sentinel :
    (quadTable (fun x => x) 0 1 (1 / 2)).length = uniformNumIntervals 0 1 (1 / 2) + 1 ∧
      (linTable (fun x => x) 0 (1 / 2) (uniformNumIntervals 0 1 (1 / 2))).length ≠
        uniformNumIntervals 0 1 (1 / 2) + 1 ∧
      linEval (linTable (fun x => x) 0 (1 / 2) (uniformNumIntervals 0 1 (1 / 2)))
        0 (1 / 2) (3 / 4) = none := by
  have hn : uniformNumIntervals 0 1 (1 / 2) = 2 := by
    unfold uniformNumIntervals
    norm_num
    decide
  have ht : linTable (fun x => x) 0 (1 / 2) 2 = [0, 1 / 2] := by
    unfold linTable
    norm_num [List.range_succ]
  refine ⟨?_, ?_, ?_⟩
  · unfold quadTable
    rw [List.length_append, List.length_map, List.length_range]
    rfl
  · rw [hn, ht]
    norm_num
  · rw [hn, ht]
    have hx1 : toUnsigned ((3 / 4 - (0 : ℚ)) / (1 / 2)) = 1 := by
      unfold toUnsigned
      norm_num
    unfold linEval
    simp only [hx1]
    rfl

/-! ## The nonuniform hash and fused-hash baking (claim C3) -/

/-- Inner loop of the Horner scheme of TransferFunctionSinh.hpp g_inv (lines
124-126) and make_horners (lines 452-457): sum = x*coefs[N-1], then for k
from N-2 down to 1, sum = x*(coefs[k] + sum).  The list argument holds
coefs[1], ..., coefs[N-1]. -/
def innerHorner (x : ℚ) : List ℚ → ℚ
  | [] => 0
  | c :: cs => x * (c + innerHorner x cs)

/-- Translation of TransferFunctionSinh.hpp g_inv, lines 122-128: the inner
Horner sum over coefs[1..N-1] plus coefs[0]. -/
def gInvHorner (cs : List ℚ) (x : ℚ) : ℚ :=
  match cs with
  | [] => 0
  | c0 :: rest => innerHorner x rest + c0

/-- Translation of the fused-hash baking of TransferFunctionSinh.hpp lines
236-238: coefs[0] -= minArg, then every coefficient is divided by stepSize. -/
def bakeCoefs (cs : List ℚ) (a h : ℚ) : List ℚ :=
  match cs with
  | [] => []
  | c0 :: rest => ((c0 - a) :: rest).map fun c => c / h

/-- Modelled from the spec: the runtime TransferFunction class holding the
baked coefficients (TransferFunction.hpp, used by MetaTable.hpp but absent
from the source tree) evaluates its inverse member as the single Horner pass
of spec section 4.2, exactly as g_inv of TransferFunctionSinh.hpp does.  The
surrounding hash is translated from MetaTable.hpp lines 213-218: x0 is the
unsigned cast of inverse(x), and the pair (x0, x) is returned -- the source
comment says the second component is deliberately not reduced because every
piece polynomial is rescaled accordingly. -/
def nonuniformHash (cs : List ℚ) (x : ℚ) : ℕ × ℚ :=
  (toUnsigned (gInvHorner cs x), x)

/-- C3 counterexample: for the baked identity transfer polynomial (q(x) = x,
obtained by baking coefficients [0,1,0,0] with a = 0, h = 1) and x = 5/2, the
hash returns local coordinate 5/2 -- the argument x itself -- not the
fractional part 1/2 of q(x) that the claim asserts. -/
theorem nonuniform_hash_not_fractional :
    (nonuniformHash (bakeCoefs [0, 1, 0, 0] 0 1) (5 / 2)).2 ≠
      gInvHorner (bakeCoefs [0, 1, 0, 0] 0 1) (5 / 2) -
        ((nonuniformHash (bakeCoefs [0, 1, 0, 0] 0 1) (5 / 2)).1 : ℚ) := by
  have hb : bakeCoefs [0, 1, 0, 0] (0 : ℚ) 1 = [0, 1, 0, 0] := by
    unfold bakeCoefs
    norm_num
  have hg : gInvHorner [(0 : ℚ), 1, 0, 0] (5 / 2) = 5 / 2 := by
    norm_num [gInvHorner, innerHorner]
  rw [hb]
  have h2 : (nonuniformHash [(0 : ℚ), 1, 0, 0] (5 / 2)).2 = 5 / 2 := rfl
  have h1 : (nonuniformHash [(0 : ℚ), 1, 0, 0] (5 / 2)).1 = 2 := by
    show toUnsigned (gInvHorner [(0 : ℚ), 1, 0, 0] (5 / 2)) = 2
    rw [hg]
    unfold toUnsigned
    norm_num
    decide
  rw [h2, h1, hg]
  norm_num

/-- C3 amended: the nonuniform hash performs one Horner evaluation of the
baked polynomial at x, casts the result to unsigned for the piece index, and
passes x itself -- not the fractional part -- as the local coordinate; the
baking rewrites the coefficients as c_0 to (c_0 - a)/h and c_k to c_k/h for
k >= 1. -/
theorem nonuniform_hash_amended (c0 : ℚ) (rest : List ℚ) (a h x : ℚ) :
    bakeCoefs (c0 :: rest) a h = ((c0 - a) / h) :: rest.map (fun c => c / h) ∧
      nonuniformHash (bakeCoefs (c0 :: rest) a h) x =
        (toUnsigned (innerHorner x (rest.map fun c => c / h) + (c0 - a) / h), x) := by
  constructor
  · unfold bakeCoefs
    simp
  · unfold nonuniformHash gInvHorner bakeCoefs
    simp

/-! ## Transfer-function candidate acceptance (claim C6) -/

/-- Tolerance constant of TransferFunctionSinh.hpp line 55 (1e-4, exact in
the rational model). -/
def tfTol : ℚ := 1 / 10000

/-- Endpoint rejection test of TransferFunctionSinh.hpp line 202: the
candidate is discarded when either endpoint misfit exceeds the tolerance. -/
def endpointsBad (q : List ℚ) (a b : ℚ) : Prop :=
  tfTol < |gInvHorner q a - a| ∨ tfTol < |gInvHorner q b - b|

instance (q : List ℚ) (a b : ℚ) : Decidable (endpointsBad q a b) := by
  unfold endpointsBad
  exact inferInstance

/-- Monotonicity at the 50 equispaced probes of [a, b'] as the claim states
the acceptance test.  The probe loop of TransferFunctionSinh.hpp lines
208-217 differs twice: its probes are (i-1)/50 and i/50 over [0,1] whatever
the domain, and its continue statement only advances the probe index, so the
check never influences acceptance. -/
def monotoneAtProbes (q : List ℚ) (a b : ℚ) : Prop :=
  ∀ i : ℕ, i < 50 →
    gInvHorner q (a + (i : ℚ) * (b - a) / 50) ≤ gInvHorner q (a + ((i : ℚ) + 1) * (b - a) / 50)

/-- Translation of the candidate loop of TransferFunctionSinh.hpp lines
185-224, over the candidate coefficient arrays in the order tried.  A
candidate is rejected only by the endpoint checks of line 202 -- the
monotonicity loop has no effect on acceptance (see monotoneAtProbes) -- the
first survivor is kept, and when no candidate survives the conditioning error
of lines 222-224 is raised. -/
def selectCandidate (cands : List (List ℚ)) (a b : ℚ) : Except FuncErr (List ℚ) :=
  match cands with
  | [] => .error .conditioning
  | q :: rest => if endpointsBad q a b then selectCandidate rest a b else .ok q

/-- C6: the cubic candidate q(x) = 16x^3 - 24x^2 + 9x on [a, b'] = [0, 1]
satisfies q(0) = 0 and q(1) = 1 exactly, so the construction loop accepts it,
yet q is strictly decreasing between probes 24/50 and 25/50, so the claimed
acceptance condition (endpoints and monotonicity at the 50 probes) rejects
it: the monotonicity check of the source never rejects a candidate. -/
theorem transfer_monotonicity_check_ineffective :
    selectCandidate [[0, 9, -24, 16]] 0 1 = .ok [0, 9, -24, 16] ∧
      ¬ monotoneAtProbes [0, 9, -24, 16] 0 1 := by
  constructor
  · unfold selectCandidate
    rw [if_neg (by norm_num [endpointsBad, gInvHorner, innerHorner, tfTol])]
  · intro hmono
    have h24 := hmono 24 (by norm_num)
    norm_num [gInvHorner, innerHorner] at h24

/-! ## The memory-to-step solver (claim C9) -/

/-- Translation of LookupTableGenerator.hpp lines 197-200: the two probe
tables are built with step sizes (m_max - m_min)/N1 and (m_max - m_min)/N2
for N1 = 2 and N2 = 10. -/
def probeStep1 (a b : ℚ) : ℚ := (b - a) / 2

/-- Second probe step of LookupTableGenerator.hpp lines 199-200. -/
def probeStep2 (a b : ℚ) : ℚ := (b - a) / 10

/-- Translation of LookupTableGenerator.hpp generate_by_impl_size, line 226:
given the probe sizes size1 and size2 and the byte budget desiredSize, the
returned table is built with stepSize = 1.0/((N2-N1)*(desiredSize-size1)/
(size2-size1) + N1), evaluated in unsigned long arithmetic, so the division
truncates.  The model assumes size1 <= desiredSize and size1 < size2 (the
regime without unsigned wrap-around). -/
def generateByImplSizeStep (size1 size2 desiredSize : ℕ) : ℚ :=
  1 / (((10 - 2) * (desiredSize - size1) / (size2 - size1) + 2 : ℕ) : ℚ)

/-- Step size the claim specifies: inverting the linearised model of table
size as a function of the interval count over [a, b] gives
h = (b-a)/(2 + 8*(B - size1)/(size2 - size1)) with exact division. -/
def implSizeStepSpec (a b : ℚ) (size1 size2 B : ℕ) : ℚ :=
  (b - a) / (2 + 8 * ((B : ℚ) - (size1 : ℚ)) / ((size2 : ℚ) - (size1 : ℚ)))

/-- C9: with domain [0, 2], probe sizes size1 = 100 and size2 = 500 and byte
budget B = 300, the source computes step size 1/6 while the claimed inversion
of the linearised size model gives (b-a)/(2 + 8*(B-size1)/(size2-size1)) =
1/3: the source omits the (b-a) factor (and floors the division). -/
theorem impl_size_step_drops_range_factor :
    generateByImplSizeStep 100 500 300 = 1 / 6 ∧
      implSizeStepSpec 0 2 100 500 300 = 1 / 3 ∧
      generateByImplSizeStep 100 500 300 ≠ implSizeStepSpec 0 2 100 500 300 := by
  have hcode : generateByImplSizeStep 100 500 300 = 1 / 6 := by
    unfold generateByImplSizeStep
    norm_num
  have hspec : implSizeStepSpec 0 2 100 500 300 = 1 / 3 := by
    unfold implSizeStepSpec
    norm_num
  refine ⟨hcode, hspec, ?_⟩
  rw [hcode, hspec]
  norm_num

end FunC
